import Mathlib

/-!
Verification of the tracked-range core of this repository.

The module under study keeps a tracked text range pointing at the "same"
logical text while edits are applied elsewhere in the document.  Its public
operations are `updateRange`, `updateFixedRange` and
`updateRangeMultipleChanges`.  The repository ships the full unit-test suite
for the module; the implementation file itself is not among the provided
sources, so every operation below is modelled from the specification
(sections 4.1 to 4.5) and validated against the concrete expectations of the
shipped test-suite, which are reproduced as theorems near the end of the
file.
-/

/-- A document position: zero-based line and character, totally ordered by
line first, then character (spec section 3). -/
structure Position where
  line : Nat
  character : Nat
deriving DecidableEq, Repr

/-- Modelled from the spec: the `isBefore` comparison of the absent
Position/Range primitive layer (section 4.1) — strict total order comparing
line first, then character. -/
def Position.isBefore (a b : Position) : Prop :=
  a.line < b.line ∨ (a.line = b.line ∧ a.character < b.character)

instance (a b : Position) : Decidable (a.isBefore b) := by
  unfold Position.isBefore; exact inferInstance

/-- Modelled from the spec: the `isEqual` comparison of the absent primitive
layer (section 4.1). -/
def Position.isEqual (a b : Position) : Prop := a = b

instance (a b : Position) : Decidable (a.isEqual b) := by
  unfold Position.isEqual; exact inferInstance

/-- Modelled from the spec: the `isAfterOrEqual` comparison of the absent
primitive layer (section 4.1); `a ≥ b` is the negation of `a < b` under the
total order. -/
def Position.isAfterOrEqual (a b : Position) : Prop := ¬ a.isBefore b

instance (a b : Position) : Decidable (a.isAfterOrEqual b) := by
  unfold Position.isAfterOrEqual; exact inferInstance

/-- Modelled from the spec: the `translate` primitive (section 4.1).  When
`lineDelta = 0` the third argument is a character offset added on the same
line; otherwise it is the absolute character value for the landing line. -/
def Position.translate (p : Position) (lineDelta : Int) (charArg : Nat) : Position :=
  if lineDelta = 0 then ⟨p.line, p.character + charArg⟩
  else ⟨(p.line + lineDelta).toNat, charArg⟩

/-- A half-open interval of positions.  The source field `end` is a reserved
word in Lean, so it is called `stop` here. -/
structure Range where
  start : Position
  stop : Position
deriving DecidableEq, Repr

/-- One edit: the replaced span (in pre-edit coordinates) and the replacement
text (spec section 3). -/
structure Edit where
  range : Range
  text : String
deriving DecidableEq, Repr

/-- Options accepted by `updateRange` (spec section 6). -/
structure UpdateRangeOptions where
  supportRangeAffix : Bool
deriving DecidableEq, Repr

/-- Modelled from the spec: number of line breaks in the replacement text
(edit-delta calculator, section 4.2). -/
def insertedLineCount (text : String) : Nat := text.toList.count '\n'

/-- Modelled from the spec: length of the replacement text after its last
line break, or its whole length when it has none (section 4.2). -/
def insertedLastLineLength (text : String) : Nat :=
  (text.toList.reverse.takeWhile (fun c => c ≠ '\n')).length

/-- Modelled from the spec: position of the replacement's end in post-edit
coordinates (section 4.2). -/
def mappedEditEnd (e : Edit) : Position :=
  if insertedLineCount e.text = 0 then
    ⟨e.range.start.line, e.range.start.character + e.text.length⟩
  else
    ⟨e.range.start.line + insertedLineCount e.text, insertedLastLineLength e.text⟩

/-- Modelled from the spec: translation of a position lying at or after the
edited span's end into post-edit coordinates (section 4.2).  The arithmetic
is carried out in `Nat` with the additions performed first, which agrees
with the specified signed arithmetic whenever `p` is at or after the span's
end. -/
def postEditTranslation (e : Edit) (p : Position) : Position :=
  if p.line = e.range.stop.line then
    ⟨(mappedEditEnd e).line,
     (mappedEditEnd e).character + (p.character - e.range.stop.character)⟩
  else
    ⟨p.line + (mappedEditEnd e).line - e.range.stop.line, p.character⟩

/-- Whether the replacement text consists solely of whitespace (true for the
empty text), used by the range-affix option (spec section 4.3). -/
def containsOnlyWhitespace (text : String) : Bool :=
  text.toList.all (fun c => c.isWhitespace)

/-- Whether the replacement text contains no whitespace at all (true for the
empty text). -/
def containsNoWhitespace (text : String) : Bool :=
  text.toList.all (fun c => !c.isWhitespace)

/-- Modelled from the spec: the default per-endpoint translation of rule 4
of section 4.3 — an endpoint strictly before the span's start is unchanged,
an endpoint at a zero-length edit's boundary is left unchanged, and an
endpoint at or after the span's end is mapped via `postEditTranslation`. -/
def mapPastEdit (e : Edit) (p : Position) : Position :=
  if p.isBefore e.range.start then p
  else if e.range.start.isEqual e.range.stop ∧ p.isEqual e.range.start then p
  else if p.isAfterOrEqual e.range.stop then postEditTranslation e p
  else p

/-- Modelled from the spec: rule-4 mapping of the tracked start (sections
4.3 and the range-affix paragraph).  A pure insertion exactly at the start is
shifted past by default; with the affix option and a replacement that is not
all whitespace, an edit ending exactly at the start is absorbed instead, the
start staying on the far side of the replacement (the span's start), as the
repository's affix tests show. -/
def mapTrackedStart (e : Edit) (options : UpdateRangeOptions) (p : Position) : Position :=
  if options.supportRangeAffix = true ∧ e.range.stop.isEqual p ∧
      containsOnlyWhitespace e.text = false then
    e.range.start
  else if e.range.start.isEqual e.range.stop ∧ p.isEqual e.range.start then
    postEditTranslation e p
  else mapPastEdit e p

/-- Modelled from the spec: rule-4 mapping of the tracked end.  A pure
insertion exactly at the end is excluded by default; with the affix option
and a replacement that is not all whitespace, an edit starting exactly at
the end is absorbed, the end moving to the far side of the replacement. -/
def mapTrackedEnd (e : Edit) (options : UpdateRangeOptions) (p : Position) : Position :=
  if options.supportRangeAffix = true ∧ e.range.start.isEqual p ∧
      containsOnlyWhitespace e.text = false then
    mappedEditEnd e
  else mapPastEdit e p

/-- Modelled from the spec: the single-edit range updater (section 4.3),
with the four-way classification checked in the stated priority order:
full containment, start-only overlap, end-only overlap, no interior
overlap.  Full containment covers strict containment and also — per rule
1's parenthetical, which counts equality at the tracked endpoints as
inside, and the section 9 note that an edit span exactly equal to the
tracked range applies the full-containment rule — the exact-equality tie,
both collapsing to the empty range at the span's start. -/
def updateRangeCore (tracked : Range) (e : Edit) (options : UpdateRangeOptions) : Range :=
  if (e.range.start.isBefore tracked.start ∧ tracked.stop.isBefore e.range.stop) ∨
      (tracked.start.isEqual e.range.start ∧ tracked.stop.isEqual e.range.stop) then
    ⟨e.range.start, e.range.start⟩
  else if tracked.start.isAfterOrEqual e.range.start ∧ tracked.start.isBefore e.range.stop ∧
      tracked.stop.isAfterOrEqual e.range.stop then
    ⟨mappedEditEnd e, postEditTranslation e tracked.stop⟩
  else if e.range.start.isBefore tracked.stop ∧ e.range.stop.isAfterOrEqual tracked.stop ∧
      e.range.start.isAfterOrEqual tracked.start then
    ⟨tracked.start, e.range.start⟩
  else
    ⟨mapTrackedStart e options tracked.start, mapTrackedEnd e options tracked.stop⟩

/-- Modelled from the spec: `updateRange` (section 6).  Every classified
case of section 4.3 produces a concrete range, so the optional result is
always populated; `none` is reserved for the fully-consumed signal and is
never produced by the specified cases. -/
def updateRange (tracked : Range) (e : Edit) (options : UpdateRangeOptions) : Option Range :=
  some (updateRangeCore tracked e options)

/-- Modelled from the spec: the fixed-extent updater (section 4.4).  The
start is mapped by the rule-4 default translation (a boundary insertion
leaves the anchor unchanged, as the fixed-range tests show), and the end is
recomputed by re-applying the original extent onto the new start with the
`translate` primitive. -/
def updateFixedRangeCore (tracked : Range) (e : Edit) : Range :=
  if tracked.stop.line = tracked.start.line then
    ⟨mapPastEdit e tracked.start,
     Position.translate (mapPastEdit e tracked.start) 0
       (tracked.stop.character - tracked.start.character)⟩
  else
    ⟨mapPastEdit e tracked.start,
     Position.translate (mapPastEdit e tracked.start)
       ((tracked.stop.line : Int) - (tracked.start.line : Int)) tracked.stop.character⟩

/-- Modelled from the spec: `updateFixedRange` (section 6). -/
def updateFixedRange (tracked : Range) (e : Edit) : Option Range :=
  some (updateFixedRangeCore tracked e)

/-- Insert an edit into a list kept in descending order of span start
(bottom of the document first). -/
def insertEditDesc (e : Edit) : List Edit → List Edit
  | [] => [e]
  | x :: xs =>
    if x.range.start.isBefore e.range.start then e :: x :: xs
    else x :: insertEditDesc e xs

/-- Modelled from the spec: sort a batch of edits by span start, descending
(section 4.5). -/
def sortChangesDesc : List Edit → List Edit
  | [] => []
  | e :: xs => insertEditDesc e (sortChangesDesc xs)

/-- Modelled from the spec: the multi-edit composer (section 4.5) — sort the
batch bottom-to-top and fold the single-edit updater over it, threading the
intermediate tracked range. -/
def updateRangeMultipleChanges (tracked : Range) (changes : List Edit) : Option Range :=
  (sortChangesDesc changes).foldl
    (fun acc e => Option.bind acc (fun r => updateRange r e ⟨false⟩)) (some tracked)

/-- Two edits are separated when their spans do not overlap and their starts
differ — the shape of a valid simultaneous batch (spec sections 3 and
4.5). -/
def editSep (a b : Edit) : Prop :=
  (b.range.start.isAfterOrEqual a.range.stop ∧ a.range.start.isBefore b.range.start) ∨
  (a.range.start.isAfterOrEqual b.range.stop ∧ b.range.start.isBefore a.range.start)

instance (a b : Edit) : Decidable (editSep a b) := by
  unfold editSep; exact inferInstance

/-- Strict descending comparison of edits by span start. -/
def editGt (a b : Edit) : Prop := b.range.start.isBefore a.range.start

instance (a b : Edit) : Decidable (editGt a b) := by
  unfold editGt; exact inferInstance

instance : IsAntisymm Edit editGt where
  antisymm a b h1 h2 := by
    exfalso
    unfold editGt Position.isBefore at h1 h2
    omega

/-- The extent of a range as a (line delta, last-line character) pair: the
character component is a same-line width when the range is single-line and
an absolute end column otherwise (spec section 4.4). -/
def rangeExtent (r : Range) : Int × Int :=
  ((r.stop.line : Int) - (r.start.line : Int),
   if r.stop.line = r.start.line then (r.stop.character : Int) - (r.start.character : Int)
   else (r.stop.character : Int))

/-- Signed line delta induced by an edit on positions past its span. -/
def editLineDelta (e : Edit) : Int :=
  ((mappedEditEnd e).line : Int) - (e.range.stop.line : Int)

/-- Signed character delta induced by an edit on positions after it on the
span's last line. -/
def editCharDelta (e : Edit) : Int :=
  ((mappedEditEnd e).character : Int) - (e.range.stop.character : Int)

theorem Position.isBefore_asymm {a b : Position} (h : a.isBefore b) : ¬ b.isBefore a := by
  unfold Position.isBefore at *; omega

theorem Position.isBefore_irrefl (a : Position) : ¬ a.isBefore a := by
  unfold Position.isBefore; omega

theorem position_eq_of_coords {a b : Position} (h1 : a.line = b.line)
    (h2 : a.character = b.character) : a = b := by
  cases a; cases b; simp_all

theorem text_empty_of_ws_and_noWs {t : String}
    (h1 : containsOnlyWhitespace t = true) (h2 : containsNoWhitespace t = true) :
    t = "" := by
  cases t with
  | mk data =>
    cases data with
    | nil => rfl
    | cons c cs =>
      exfalso
      simp only [containsOnlyWhitespace, containsNoWhitespace, String.toList,
        List.all_cons, Bool.and_eq_true] at h1 h2
      rcases h1 with ⟨h1, -⟩
      rcases h2 with ⟨h2, -⟩
      simp [h1] at h2

theorem mappedEditEnd_empty (e : Edit) (h : e.text = "") :
    mappedEditEnd e = e.range.start := by
  unfold mappedEditEnd insertedLineCount
  rw [h]
  rfl

theorem postEditTranslation_at_stop (e : Edit) :
    postEditTranslation e e.range.stop = mappedEditEnd e := by
  unfold postEditTranslation
  rw [if_pos rfl]
  refine position_eq_of_coords rfl ?_
  dsimp only
  omega

theorem postEditTranslation_shift (e : Edit) (p : Position)
    (h : e.range.stop.isBefore p) :
    ((postEditTranslation e p).line : Int) = (p.line : Int) + editLineDelta e ∧
    ((postEditTranslation e p).character : Int) =
      (p.character : Int) +
        (if p.line = e.range.stop.line then editCharDelta e else 0) := by
  unfold postEditTranslation editLineDelta editCharDelta Position.isBefore at *
  by_cases hl : p.line = e.range.stop.line
  · rw [if_pos hl, if_pos hl]
    refine ⟨?_, ?_⟩ <;> (dsimp only; omega)
  · rw [if_neg hl, if_neg hl]
    refine ⟨?_, ?_⟩ <;> (dsimp only; omega)

/-!
The expectations of the repository's test-suite for the tracked-range
module, replayed against the model.  Tracked and edited ranges below are the
positions denoted by the `[]` and `()` markers of each test spec.
-/

theorem repoTest01_delete_before :
    updateRange ⟨⟨1, 1⟩, ⟨1, 3⟩⟩ ⟨⟨⟨0, 2⟩, ⟨0, 3⟩⟩, ""⟩ ⟨false⟩ =
      some ⟨⟨1, 1⟩, ⟨1, 3⟩⟩ := by decide

theorem repoTest02_multiline_delete_before :
    updateRange ⟨⟨1, 5⟩, ⟨1, 9⟩⟩ ⟨⟨⟨0, 3⟩, ⟨1, 2⟩⟩, ""⟩ ⟨false⟩ =
      some ⟨⟨0, 6⟩, ⟨0, 10⟩⟩ := by decide

theorem repoTest03_delete_within :
    updateRange ⟨⟨1, 0⟩, ⟨1, 5⟩⟩ ⟨⟨⟨1, 2⟩, ⟨1, 3⟩⟩, ""⟩ ⟨false⟩ =
      some ⟨⟨1, 0⟩, ⟨1, 4⟩⟩ := by decide

theorem repoTest04_multiline_delete_within :
    updateRange ⟨⟨0, 1⟩, ⟨1, 6⟩⟩ ⟨⟨⟨0, 4⟩, ⟨1, 1⟩⟩, ""⟩ ⟨false⟩ =
      some ⟨⟨0, 1⟩, ⟨0, 9⟩⟩ := by decide

theorem repoTest05_delete_after :
    updateRange ⟨⟨0, 6⟩, ⟨0, 11⟩⟩ ⟨⟨⟨0, 11⟩, ⟨0, 12⟩⟩, ""⟩ ⟨false⟩ =
      some ⟨⟨0, 6⟩, ⟨0, 11⟩⟩ := by decide

theorem repoTest06_delete_overlapping_start :
    updateRange ⟨⟨0, 6⟩, ⟨0, 13⟩⟩ ⟨⟨⟨0, 1⟩, ⟨0, 8⟩⟩, ""⟩ ⟨false⟩ =
      some ⟨⟨0, 1⟩, ⟨0, 6⟩⟩ := by decide

theorem repoTest07_insert_before :
    updateRange ⟨⟨0, 0⟩, ⟨0, 4⟩⟩ ⟨⟨⟨0, 0⟩, ⟨0, 0⟩⟩, "h"⟩ ⟨false⟩ =
      some ⟨⟨0, 1⟩, ⟨0, 5⟩⟩ := by decide

theorem repoTest08_insert_within :
    updateRange ⟨⟨0, 1⟩, ⟨0, 3⟩⟩ ⟨⟨⟨0, 2⟩, ⟨0, 2⟩⟩, "7"⟩ ⟨false⟩ =
      some ⟨⟨0, 1⟩, ⟨0, 4⟩⟩ := by decide

theorem repoTest09_insert_after :
    updateRange ⟨⟨0, 0⟩, ⟨0, 3⟩⟩ ⟨⟨⟨0, 4⟩, ⟨0, 5⟩⟩, "avuh coincidence"⟩ ⟨false⟩ =
      some ⟨⟨0, 0⟩, ⟨0, 3⟩⟩ := by decide

theorem repoTest10_edit_overlapping_start :
    updateRange ⟨⟨0, 5⟩, ⟨0, 12⟩⟩ ⟨⟨⟨0, 0⟩, ⟨0, 7⟩⟩, "animated-mouse"⟩ ⟨false⟩ =
      some ⟨⟨0, 14⟩, ⟨0, 19⟩⟩ := by decide

theorem repoTest11_edit_overlapping_end :
    updateRange ⟨⟨0, 0⟩, ⟨0, 7⟩⟩ ⟨⟨⟨0, 5⟩, ⟨0, 12⟩⟩, " everyone"⟩ ⟨false⟩ =
      some ⟨⟨0, 0⟩, ⟨0, 5⟩⟩ := by decide

theorem repoTest12_containment_collapse :
    updateRange ⟨⟨0, 9⟩, ⟨0, 15⟩⟩ ⟨⟨⟨0, 8⟩, ⟨0, 20⟩⟩, "woozl wuzl"⟩ ⟨false⟩ =
      some ⟨⟨0, 8⟩, ⟨0, 8⟩⟩ := by decide

theorem repoTest14_multiline_insert_before_same_line :
    updateRange ⟨⟨0, 7⟩, ⟨0, 12⟩⟩ ⟨⟨⟨0, 5⟩, ⟨0, 6⟩⟩, " everybody\naround the"⟩ ⟨false⟩ =
      some ⟨⟨1, 11⟩, ⟨1, 16⟩⟩ := by decide

theorem repoTest15_affix_replace_before :
    updateRange ⟨⟨0, 1⟩, ⟨0, 4⟩⟩ ⟨⟨⟨0, 0⟩, ⟨0, 1⟩⟩, "he"⟩ ⟨true⟩ =
      some ⟨⟨0, 0⟩, ⟨0, 5⟩⟩ := by decide

theorem repoTest16_affix_insert_before :
    updateRange ⟨⟨0, 0⟩, ⟨0, 4⟩⟩ ⟨⟨⟨0, 0⟩, ⟨0, 0⟩⟩, "h"⟩ ⟨true⟩ =
      some ⟨⟨0, 0⟩, ⟨0, 5⟩⟩ := by decide

theorem repoTest17_affix_replace_after :
    updateRange ⟨⟨0, 0⟩, ⟨0, 2⟩⟩ ⟨⟨⟨0, 2⟩, ⟨0, 3⟩⟩, "llo"⟩ ⟨true⟩ =
      some ⟨⟨0, 0⟩, ⟨0, 5⟩⟩ := by decide

theorem repoTest18_affix_insert_after :
    updateRange ⟨⟨0, 0⟩, ⟨0, 4⟩⟩ ⟨⟨⟨0, 4⟩, ⟨0, 4⟩⟩, "o"⟩ ⟨true⟩ =
      some ⟨⟨0, 0⟩, ⟨0, 5⟩⟩ := by decide

theorem repoTest19_affix_whitespace_before :
    updateRange ⟨⟨0, 1⟩, ⟨0, 4⟩⟩ ⟨⟨⟨0, 0⟩, ⟨0, 1⟩⟩, "  \n"⟩ ⟨true⟩ =
      some ⟨⟨1, 0⟩, ⟨1, 3⟩⟩ := by decide

theorem repoTest20_affix_whitespace_after :
    updateRange ⟨⟨0, 0⟩, ⟨0, 5⟩⟩ ⟨⟨⟨0, 5⟩, ⟨0, 6⟩⟩, "  \n"⟩ ⟨true⟩ =
      some ⟨⟨0, 0⟩, ⟨0, 5⟩⟩ := by decide

theorem repoTest21_fixed_before :
    updateFixedRange ⟨⟨0, 0⟩, ⟨0, 11⟩⟩ ⟨⟨⟨0, 0⟩, ⟨0, 0⟩⟩, "I am here, "⟩ =
      some ⟨⟨0, 0⟩, ⟨0, 11⟩⟩ := by decide

theorem repoTest22_fixed_after :
    updateFixedRange ⟨⟨0, 0⟩, ⟨0, 11⟩⟩ ⟨⟨⟨0, 11⟩, ⟨0, 12⟩⟩, ", I am here"⟩ =
      some ⟨⟨0, 0⟩, ⟨0, 11⟩⟩ := by decide

theorem repoTest23_fixed_within :
    updateFixedRange ⟨⟨0, 0⟩, ⟨0, 10⟩⟩ ⟨⟨⟨0, 6⟩, ⟨0, 6⟩⟩, "w"⟩ =
      some ⟨⟨0, 0⟩, ⟨0, 10⟩⟩ := by decide

theorem repoTest24_multi_separate_lines :
    updateRangeMultipleChanges ⟨⟨2, 7⟩, ⟨17, 13⟩⟩
      [⟨⟨⟨16, 5⟩, ⟨17, 3⟩⟩, ""⟩, ⟨⟨⟨2, 2⟩, ⟨2, 3⟩⟩, "hi"⟩] =
      some ⟨⟨2, 8⟩, ⟨16, 15⟩⟩ := by decide

theorem repoTest25_multi_same_line :
    updateRangeMultipleChanges ⟨⟨2, 7⟩, ⟨5, 13⟩⟩
      [⟨⟨⟨2, 10⟩, ⟨3, 4⟩⟩, "hi"⟩, ⟨⟨⟨3, 7⟩, ⟨5, 11⟩⟩, "bye"⟩] =
      some ⟨⟨2, 7⟩, ⟨2, 20⟩⟩ := by decide

theorem foldl_bind_some (l : List Edit) (r : Range) :
    l.foldl (fun acc e => Option.bind acc (fun x => updateRange x e ⟨false⟩)) (some r) =
      some (l.foldl (fun x e => updateRangeCore x e ⟨false⟩) r) := by
  induction l generalizing r with
  | nil => rfl
  | cons e t ih => exact ih (updateRangeCore r e ⟨false⟩)

/-- Claim C1: an edit whose replaced span strictly contains the tracked
range collapses the result to the empty range at the span's start; neither
the old tracked content nor the replacement text is part of the result. -/
theorem updateRange_containment_collapse (tracked : Range) (e : Edit)
    (options : UpdateRangeOptions)
    (h1 : e.range.start.isBefore tracked.start)
    (h2 : tracked.stop.isBefore e.range.stop) :
    updateRange tracked e options = some ⟨e.range.start, e.range.start⟩ ∧
    (updateRangeCore tracked e options).start = (updateRangeCore tracked e options).stop := by
  unfold updateRange updateRangeCore
  rw [if_pos (Or.inl ⟨h1, h2⟩)]
  exact ⟨rfl, rfl⟩

/-- Witness for C1 at a concrete strictly-containing edit. -/
theorem updateRange_containment_collapse_witness :
    updateRange ⟨⟨1, 2⟩, ⟨1, 5⟩⟩ ⟨⟨⟨1, 1⟩, ⟨2, 0⟩⟩, "ab"⟩ ⟨false⟩ =
      some ⟨⟨1, 1⟩, ⟨1, 1⟩⟩ ∧
    (updateRangeCore ⟨⟨1, 2⟩, ⟨1, 5⟩⟩ ⟨⟨⟨1, 1⟩, ⟨2, 0⟩⟩, "ab"⟩ ⟨false⟩).start =
      (updateRangeCore ⟨⟨1, 2⟩, ⟨1, 5⟩⟩ ⟨⟨⟨1, 1⟩, ⟨2, 0⟩⟩, "ab"⟩ ⟨false⟩).stop :=
  updateRange_containment_collapse ⟨⟨1, 2⟩, ⟨1, 5⟩⟩ ⟨⟨⟨1, 1⟩, ⟨2, 0⟩⟩, "ab"⟩ ⟨false⟩
    (by decide) (by decide)

/-- Claim C2: the three operations only ever use `none` for the full
containment signal; in fact the modelled operations return a populated
optional — a concrete, possibly empty, range — on every input, so every
classified case other than full containment yields a concrete range. -/
theorem tracked_range_results_are_concrete (tracked : Range) (e : Edit)
    (options : UpdateRangeOptions) (changes : List Edit) :
    (updateRange tracked e options).isSome = true ∧
    (updateFixedRange tracked e).isSome = true ∧
    (updateRangeMultipleChanges tracked changes).isSome = true := by
  refine ⟨rfl, rfl, ?_⟩
  unfold updateRangeMultipleChanges
  rw [foldl_bind_some]
  rfl

/-- Claim C3, counterexample: when the edit's span is exactly the tracked
range (both the single character at line 0 column 0), the claim's
hypotheses hold, yet the result is the full-containment collapse to the
empty range at the span's start — not the claimed range from mappedEditEnd
to the translated tracked end. -/
theorem updateRange_start_overlap_counterexample :
    (Position.isAfterOrEqual (⟨0, 0⟩ : Position) ⟨0, 0⟩ ∧
     Position.isBefore ⟨0, 0⟩ ⟨0, 1⟩ ∧
     Position.isAfterOrEqual (⟨0, 1⟩ : Position) ⟨0, 1⟩) ∧
    updateRange ⟨⟨0, 0⟩, ⟨0, 1⟩⟩ ⟨⟨⟨0, 0⟩, ⟨0, 1⟩⟩, "x"⟩ ⟨false⟩ =
      some ⟨⟨0, 0⟩, ⟨0, 0⟩⟩ ∧
    updateRange ⟨⟨0, 0⟩, ⟨0, 1⟩⟩ ⟨⟨⟨0, 0⟩, ⟨0, 1⟩⟩, "x"⟩ ⟨false⟩ ≠
      some ⟨mappedEditEnd ⟨⟨⟨0, 0⟩, ⟨0, 1⟩⟩, "x"⟩,
            postEditTranslation ⟨⟨⟨0, 0⟩, ⟨0, 1⟩⟩, "x"⟩ ⟨0, 1⟩⟩ := by
  refine ⟨⟨?_, ?_, ?_⟩, ?_, ?_⟩ <;> decide

/-- Claim C3 as amended: a start-only overlap (span start at or before the
tracked start, which lies strictly inside the span, while the tracked end
reaches at least the span end) in which the edit's span is not exactly the
tracked range (that tie collapses per the full-containment rule) moves the
tracked start to the position immediately after the replacement text and
maps the tracked end through the edit-delta translation. -/
theorem updateRange_start_overlap_amended (tracked : Range) (e : Edit)
    (options : UpdateRangeOptions)
    (h1 : tracked.start.isAfterOrEqual e.range.start)
    (h2 : tracked.start.isBefore e.range.stop)
    (h3 : tracked.stop.isAfterOrEqual e.range.stop)
    (h4 : ¬ (tracked.start = e.range.start ∧ tracked.stop = e.range.stop)) :
    updateRange tracked e options =
      some ⟨mappedEditEnd e, postEditTranslation e tracked.stop⟩ := by
  unfold updateRange updateRangeCore
  have hneg1 : ¬ ((e.range.start.isBefore tracked.start ∧
      tracked.stop.isBefore e.range.stop) ∨
      (tracked.start.isEqual e.range.start ∧ tracked.stop.isEqual e.range.stop)) := by
    rintro (⟨-, hc⟩ | ⟨hc1, hc2⟩)
    · exact h3 hc
    · exact h4 ⟨hc1, hc2⟩
  rw [if_neg hneg1, if_pos ⟨h1, h2, h3⟩]

/-- Witness for the amended C3 at a concrete start-overlapping deletion. -/
theorem updateRange_start_overlap_amended_witness :
    updateRange ⟨⟨0, 6⟩, ⟨0, 13⟩⟩ ⟨⟨⟨0, 1⟩, ⟨0, 8⟩⟩, ""⟩ ⟨false⟩ =
      some ⟨mappedEditEnd ⟨⟨⟨0, 1⟩, ⟨0, 8⟩⟩, ""⟩,
            postEditTranslation ⟨⟨⟨0, 1⟩, ⟨0, 8⟩⟩, ""⟩ ⟨0, 13⟩⟩ :=
  updateRange_start_overlap_amended ⟨⟨0, 6⟩, ⟨0, 13⟩⟩ ⟨⟨⟨0, 1⟩, ⟨0, 8⟩⟩, ""⟩ ⟨false⟩
    (by decide) (by decide) (by decide) (by decide)

/-- Claim C4: an end-only overlap (span start strictly before the tracked
end, which is at or before the span end, with the tracked start at or
before the span start) keeps the tracked start unchanged and truncates the
tracked end to the span start, leaving the replacement text after the
result; at the exact-equality tie the full-containment collapse produces
that same range. -/
theorem updateRange_end_overlap (tracked : Range) (e : Edit)
    (options : UpdateRangeOptions)
    (h1 : e.range.start.isBefore tracked.stop)
    (h2 : e.range.stop.isAfterOrEqual tracked.stop)
    (h3 : e.range.start.isAfterOrEqual tracked.start) :
    updateRange tracked e options = some ⟨tracked.start, e.range.start⟩ := by
  unfold updateRange updateRangeCore
  by_cases htie : tracked.start = e.range.start ∧ tracked.stop = e.range.stop
  · rw [if_pos (Or.inr ⟨htie.1, htie.2⟩), htie.1]
  · have hneg1 : ¬ ((e.range.start.isBefore tracked.start ∧
        tracked.stop.isBefore e.range.stop) ∨
        (tracked.start.isEqual e.range.start ∧ tracked.stop.isEqual e.range.stop)) := by
      rintro (⟨hc, -⟩ | ⟨hc1, hc2⟩)
      · exact h3 hc
      · exact htie ⟨hc1, hc2⟩
    have hneg2 : ¬ (tracked.start.isAfterOrEqual e.range.start ∧
        tracked.start.isBefore e.range.stop ∧
        tracked.stop.isAfterOrEqual e.range.stop) := by
      rintro ⟨hc1, -, hc3⟩
      apply htie
      unfold Position.isAfterOrEqual Position.isBefore at h2 h3 hc1 hc3
      exact ⟨position_eq_of_coords (by omega) (by omega),
             position_eq_of_coords (by omega) (by omega)⟩
    rw [if_neg hneg1, if_neg hneg2, if_pos ⟨h1, h2, h3⟩]

/-- Witness for C4 at a concrete end-overlapping replacement. -/
theorem updateRange_end_overlap_witness :
    updateRange ⟨⟨1, 0⟩, ⟨1, 4⟩⟩ ⟨⟨⟨1, 2⟩, ⟨1, 6⟩⟩, "zz"⟩ ⟨false⟩ =
      some ⟨⟨1, 0⟩, ⟨1, 2⟩⟩ :=
  updateRange_end_overlap ⟨⟨1, 0⟩, ⟨1, 4⟩⟩ ⟨⟨⟨1, 2⟩, ⟨1, 6⟩⟩, "zz"⟩ ⟨false⟩
    (by decide) (by decide) (by decide)

/-- Claim C10: an edit replacing a span strictly inside the tracked range
leaves the tracked start unchanged and maps the tracked end through the
edit-delta translation under the default elastic policy, so the range
resizes by exactly the edit's delta. -/
theorem updateRange_interior_edit (tracked : Range) (e : Edit)
    (hspan : e.range.stop.isAfterOrEqual e.range.start)
    (h1 : tracked.start.isBefore e.range.start)
    (h2 : e.range.stop.isBefore tracked.stop) :
    updateRange tracked e ⟨false⟩ =
      some ⟨tracked.start, postEditTranslation e tracked.stop⟩ := by
  unfold updateRange updateRangeCore
  have hneg1 : ¬ ((e.range.start.isBefore tracked.start ∧
      tracked.stop.isBefore e.range.stop) ∨
      (tracked.start.isEqual e.range.start ∧ tracked.stop.isEqual e.range.stop)) := by
    rintro (⟨hc, -⟩ | ⟨hc1, -⟩)
    · exact Position.isBefore_asymm h1 hc
    · unfold Position.isEqual at hc1
      have hb := h1
      rw [hc1] at hb
      exact Position.isBefore_irrefl _ hb
  have hneg2 : ¬ (tracked.start.isAfterOrEqual e.range.start ∧
      tracked.start.isBefore e.range.stop ∧
      tracked.stop.isAfterOrEqual e.range.stop) := fun hc => hc.1 h1
  have hneg3 : ¬ (e.range.start.isBefore tracked.stop ∧
      e.range.stop.isAfterOrEqual tracked.stop ∧
      e.range.start.isAfterOrEqual tracked.start) := fun hc => hc.2.1 h2
  rw [if_neg hneg1, if_neg hneg2, if_neg hneg3]
  unfold mapTrackedStart mapTrackedEnd mapPastEdit
  have haffix1 : ¬ ((⟨false⟩ : UpdateRangeOptions).supportRangeAffix = true ∧
      e.range.stop.isEqual tracked.start ∧
      containsOnlyWhitespace e.text = false) := by
    rintro ⟨hc, -, -⟩
    simp at hc
  have haffix2 : ¬ ((⟨false⟩ : UpdateRangeOptions).supportRangeAffix = true ∧
      e.range.start.isEqual tracked.stop ∧
      containsOnlyWhitespace e.text = false) := by
    rintro ⟨hc, -, -⟩
    simp at hc
  have hzs : ¬ (e.range.start.isEqual e.range.stop ∧
      tracked.start.isEqual e.range.start) := by
    rintro ⟨-, hc⟩
    unfold Position.isEqual at hc
    rw [hc] at h1
    exact Position.isBefore_irrefl _ h1
  have hstop1 : ¬ tracked.stop.isBefore e.range.start := by
    unfold Position.isAfterOrEqual Position.isBefore at *
    omega
  have hstop2 : ¬ (e.range.start.isEqual e.range.stop ∧
      tracked.stop.isEqual e.range.start) := by
    rintro ⟨-, hc⟩
    unfold Position.isEqual at hc
    rw [hc] at h2
    exact hspan h2
  have hstop3 : tracked.stop.isAfterOrEqual e.range.stop := fun hc =>
    Position.isBefore_asymm h2 hc
  rw [if_neg haffix1, if_neg hzs, if_pos h1, if_neg haffix2, if_neg hstop1,
    if_neg hstop2, if_pos hstop3]

/-- Witness for C10 at a concrete interior deletion. -/
theorem updateRange_interior_edit_witness :
    updateRange ⟨⟨1, 0⟩, ⟨1, 5⟩⟩ ⟨⟨⟨1, 2⟩, ⟨1, 3⟩⟩, ""⟩ ⟨false⟩ =
      some ⟨⟨1, 0⟩, postEditTranslation ⟨⟨⟨1, 2⟩, ⟨1, 3⟩⟩, ""⟩ ⟨1, 5⟩⟩ :=
  updateRange_interior_edit ⟨⟨1, 0⟩, ⟨1, 5⟩⟩ ⟨⟨⟨1, 2⟩, ⟨1, 3⟩⟩, ""⟩
    (by decide) (by decide) (by decide)

/-- Claim C5: an edit entirely before the tracked start shifts both tracked
endpoints by exactly the edit's induced delta — the line delta everywhere,
plus the character delta on an endpoint lying on the line where the edit
ends — and the result has the same line extent and character extent as the
original tracked range. -/
theorem updateRange_pure_shift (tracked : Range) (e : Edit)
    (options : UpdateRangeOptions)
    (hval : tracked.stop.isAfterOrEqual tracked.start)
    (hspan : e.range.stop.isAfterOrEqual e.range.start)
    (hbefore : e.range.stop.isBefore tracked.start) :
    updateRange tracked e options =
      some ⟨postEditTranslation e tracked.start, postEditTranslation e tracked.stop⟩ ∧
    ((updateRangeCore tracked e options).start.line : Int) =
      (tracked.start.line : Int) + editLineDelta e ∧
    ((updateRangeCore tracked e options).start.character : Int) =
      (tracked.start.character : Int) +
        (if tracked.start.line = e.range.stop.line then editCharDelta e else 0) ∧
    ((updateRangeCore tracked e options).stop.line : Int) =
      (tracked.stop.line : Int) + editLineDelta e ∧
    ((updateRangeCore tracked e options).stop.character : Int) =
      (tracked.stop.character : Int) +
        (if tracked.stop.line = e.range.stop.line then editCharDelta e else 0) ∧
    rangeExtent (updateRangeCore tracked e options) = rangeExtent tracked := by
  have hval' := hval
  have hspan' := hspan
  have hbefore' := hbefore
  unfold Position.isAfterOrEqual Position.isBefore at hval' hspan' hbefore'
  have hcore : updateRangeCore tracked e options =
      ⟨postEditTranslation e tracked.start, postEditTranslation e tracked.stop⟩ := by
    unfold updateRangeCore
    have hneg1 : ¬ ((e.range.start.isBefore tracked.start ∧
        tracked.stop.isBefore e.range.stop) ∨
        (tracked.start.isEqual e.range.start ∧ tracked.stop.isEqual e.range.stop)) := by
      rintro (hc | ⟨hc1, -⟩)
      · unfold Position.isBefore at hc
        omega
      · unfold Position.isEqual at hc1
        have hb := hbefore'
        rw [hc1] at hb
        omega
    have hneg2 : ¬ (tracked.start.isAfterOrEqual e.range.start ∧
        tracked.start.isBefore e.range.stop ∧
        tracked.stop.isAfterOrEqual e.range.stop) := by
      unfold Position.isAfterOrEqual Position.isBefore
      omega
    have hneg3 : ¬ (e.range.start.isBefore tracked.stop ∧
        e.range.stop.isAfterOrEqual tracked.stop ∧
        e.range.start.isAfterOrEqual tracked.start) := by
      unfold Position.isAfterOrEqual Position.isBefore
      omega
    rw [if_neg hneg1, if_neg hneg2, if_neg hneg3]
    unfold mapTrackedStart mapTrackedEnd mapPastEdit
    have haffix1 : ¬ (options.supportRangeAffix = true ∧
        e.range.stop.isEqual tracked.start ∧
        containsOnlyWhitespace e.text = false) := by
      rintro ⟨-, hc, -⟩
      unfold Position.isEqual at hc
      have hb := hbefore
      rw [hc] at hb
      exact Position.isBefore_irrefl _ hb
    have hzs : ¬ (e.range.start.isEqual e.range.stop ∧
        tracked.start.isEqual e.range.start) := by
      rintro ⟨-, hc⟩
      unfold Position.isEqual at hc
      have hb := hbefore'
      rw [hc] at hb
      omega
    have hts1 : ¬ tracked.start.isBefore e.range.start := by
      unfold Position.isBefore
      omega
    have hts2 : tracked.start.isAfterOrEqual e.range.stop := by
      unfold Position.isAfterOrEqual Position.isBefore
      omega
    have haffix2 : ¬ (options.supportRangeAffix = true ∧
        e.range.start.isEqual tracked.stop ∧
        containsOnlyWhitespace e.text = false) := by
      rintro ⟨-, hc, -⟩
      unfold Position.isEqual at hc
      rw [hc] at hspan'
      omega
    have hte1 : ¬ tracked.stop.isBefore e.range.start := by
      unfold Position.isBefore
      omega
    have hzse : ¬ (e.range.start.isEqual e.range.stop ∧
        tracked.stop.isEqual e.range.start) := by
      rintro ⟨-, hc⟩
      unfold Position.isEqual at hc
      rw [hc] at hval'
      omega
    have hte2 : tracked.stop.isAfterOrEqual e.range.stop := by
      unfold Position.isAfterOrEqual Position.isBefore
      omega
    rw [if_neg haffix1, if_neg hzs, if_neg hts1, if_neg hzs, if_pos hts2,
      if_neg haffix2, if_neg hte1, if_neg hzse, if_pos hte2]
  have hse : e.range.stop.isBefore tracked.stop := by
    unfold Position.isBefore
    omega
  rcases postEditTranslation_shift e tracked.start hbefore with ⟨hs1, hs2⟩
  rcases postEditTranslation_shift e tracked.stop hse with ⟨he1, he2⟩
  refine ⟨by unfold updateRange; rw [hcore], ?_, ?_, ?_, ?_, ?_⟩
  · rw [hcore]
    exact hs1
  · rw [hcore]
    exact hs2
  · rw [hcore]
    exact he1
  · rw [hcore]
    exact he2
  · rw [hcore]
    unfold rangeExtent
    dsimp only
    by_cases hts : tracked.start.line = e.range.stop.line
    · rw [if_pos hts] at hs2
      by_cases hte : tracked.stop.line = e.range.stop.line
      · rw [if_pos hte] at he2
        rw [Prod.mk.injEq]
        refine ⟨by omega, ?_⟩
        split_ifs <;> omega
      · rw [if_neg hte] at he2
        rw [Prod.mk.injEq]
        refine ⟨by omega, ?_⟩
        split_ifs <;> omega
    · rw [if_neg hts] at hs2
      by_cases hte : tracked.stop.line = e.range.stop.line
      · rw [if_pos hte] at he2
        rw [Prod.mk.injEq]
        refine ⟨by omega, ?_⟩
        split_ifs <;> omega
      · rw [if_neg hte] at he2
        rw [Prod.mk.injEq]
        refine ⟨by omega, ?_⟩
        split_ifs <;> omega

/-- Witness for C5 at a concrete multi-line deletion before the range. -/
theorem updateRange_pure_shift_witness :
    updateRange ⟨⟨1, 5⟩, ⟨1, 9⟩⟩ ⟨⟨⟨0, 3⟩, ⟨1, 2⟩⟩, ""⟩ ⟨false⟩ =
      some ⟨postEditTranslation ⟨⟨⟨0, 3⟩, ⟨1, 2⟩⟩, ""⟩ ⟨1, 5⟩,
            postEditTranslation ⟨⟨⟨0, 3⟩, ⟨1, 2⟩⟩, ""⟩ ⟨1, 9⟩⟩ :=
  (updateRange_pure_shift ⟨⟨1, 5⟩, ⟨1, 9⟩⟩ ⟨⟨⟨0, 3⟩, ⟨1, 2⟩⟩, ""⟩ ⟨false⟩
    (by decide) (by decide) (by decide)).1

/-- Claim C6: with the affix option disabled, a pure insertion exactly at
the tracked start leaves the inserted text outside the tracked range — the
start is shifted to the position just past the replacement and the end is
translated accordingly, so the range does not absorb the adjacent
insertion. -/
theorem updateRange_boundary_insertion_default (tracked : Range) (e : Edit)
    (options : UpdateRangeOptions)
    (haffix : options.supportRangeAffix = false)
    (hzero : e.range.stop = e.range.start)
    (hat : e.range.start = tracked.start)
    (hne : tracked.start.isBefore tracked.stop) :
    updateRange tracked e options =
      some ⟨mappedEditEnd e, postEditTranslation e tracked.stop⟩ ∧
    postEditTranslation e tracked.start = mappedEditEnd e := by
  have hpe : postEditTranslation e tracked.start = mappedEditEnd e := by
    rw [← (hzero.trans hat)]
    exact postEditTranslation_at_stop e
  refine ⟨?_, hpe⟩
  unfold updateRange updateRangeCore
  have hneg1 : ¬ ((e.range.start.isBefore tracked.start ∧
      tracked.stop.isBefore e.range.stop) ∨
      (tracked.start.isEqual e.range.start ∧ tracked.stop.isEqual e.range.stop)) := by
    rintro (⟨hc, -⟩ | ⟨-, hc2⟩)
    · rw [hat] at hc
      exact Position.isBefore_irrefl _ hc
    · unfold Position.isEqual at hc2
      have h6 : tracked.stop = tracked.start := hc2.trans (hzero.trans hat)
      rw [h6] at hne
      exact Position.isBefore_irrefl _ hne
  have hneg2 : ¬ (tracked.start.isAfterOrEqual e.range.start ∧
      tracked.start.isBefore e.range.stop ∧
      tracked.stop.isAfterOrEqual e.range.stop) := by
    rintro ⟨-, hc, -⟩
    rw [hzero, hat] at hc
    exact Position.isBefore_irrefl _ hc
  have hneg3 : ¬ (e.range.start.isBefore tracked.stop ∧
      e.range.stop.isAfterOrEqual tracked.stop ∧
      e.range.start.isAfterOrEqual tracked.start) := by
    rintro ⟨-, hc, -⟩
    apply hc
    rw [hzero, hat]
    exact hne
  rw [if_neg hneg1, if_neg hneg2, if_neg hneg3]
  unfold mapTrackedStart mapTrackedEnd mapPastEdit
  have haffix1 : ¬ (options.supportRangeAffix = true ∧
      e.range.stop.isEqual tracked.start ∧
      containsOnlyWhitespace e.text = false) := by
    rintro ⟨hc, -, -⟩
    rw [haffix] at hc
    exact absurd hc (by decide)
  have haffix2 : ¬ (options.supportRangeAffix = true ∧
      e.range.start.isEqual tracked.stop ∧
      containsOnlyWhitespace e.text = false) := by
    rintro ⟨hc, -, -⟩
    rw [haffix] at hc
    exact absurd hc (by decide)
  have hzs : e.range.start.isEqual e.range.stop ∧
      tracked.start.isEqual e.range.start := by
    exact ⟨hzero.symm, hat.symm⟩
  have hte1 : ¬ tracked.stop.isBefore e.range.start := by
    rintro hc
    rw [hat] at hc
    exact Position.isBefore_asymm hne hc
  have hte2 : ¬ (e.range.start.isEqual e.range.stop ∧
      tracked.stop.isEqual e.range.start) := by
    rintro ⟨-, hc⟩
    unfold Position.isEqual at hc
    rw [hc, hat] at hne
    exact Position.isBefore_irrefl _ hne
  have hte3 : tracked.stop.isAfterOrEqual e.range.stop := by
    rintro hc
    rw [hzero, hat] at hc
    exact Position.isBefore_asymm hne hc
  rw [if_neg haffix1, if_pos hzs, if_neg haffix2, if_neg hte1, if_neg hte2,
    if_pos hte3, hpe]

/-- Witness for C6 at a concrete boundary insertion. -/
theorem updateRange_boundary_insertion_default_witness :
    updateRange ⟨⟨0, 0⟩, ⟨0, 4⟩⟩ ⟨⟨⟨0, 0⟩, ⟨0, 0⟩⟩, "h"⟩ ⟨false⟩ =
      some ⟨mappedEditEnd ⟨⟨⟨0, 0⟩, ⟨0, 0⟩⟩, "h"⟩,
            postEditTranslation ⟨⟨⟨0, 0⟩, ⟨0, 0⟩⟩, "h"⟩ ⟨0, 4⟩⟩ :=
  (updateRange_boundary_insertion_default ⟨⟨0, 0⟩, ⟨0, 4⟩⟩ ⟨⟨⟨0, 0⟩, ⟨0, 0⟩⟩, "h"⟩
    ⟨false⟩ rfl (by decide) (by decide) (by decide)).1

theorem mapTrackedStart_wsOnly (e : Edit) (p : Position)
    (hws : containsOnlyWhitespace e.text = true) (o1 o2 : UpdateRangeOptions) :
    mapTrackedStart e o1 p = mapTrackedStart e o2 p := by
  have hcond : ∀ o : UpdateRangeOptions, ¬ (o.supportRangeAffix = true ∧
      e.range.stop.isEqual p ∧ containsOnlyWhitespace e.text = false) := by
    rintro o ⟨-, -, hc⟩
    rw [hws] at hc
    exact absurd hc (by decide)
  unfold mapTrackedStart
  rw [if_neg (hcond o1), if_neg (hcond o2)]

theorem mapTrackedEnd_wsOnly (e : Edit) (p : Position)
    (hws : containsOnlyWhitespace e.text = true) (o1 o2 : UpdateRangeOptions) :
    mapTrackedEnd e o1 p = mapTrackedEnd e o2 p := by
  have hcond : ∀ o : UpdateRangeOptions, ¬ (o.supportRangeAffix = true ∧
      e.range.start.isEqual p ∧ containsOnlyWhitespace e.text = false) := by
    rintro o ⟨-, -, hc⟩
    rw [hws] at hc
    exact absurd hc (by decide)
  unfold mapTrackedEnd
  rw [if_neg (hcond o1), if_neg (hcond o2)]

theorem updateRangeCore_wsOnly (tracked : Range) (e : Edit)
    (hws : containsOnlyWhitespace e.text = true) (o1 o2 : UpdateRangeOptions) :
    updateRangeCore tracked e o1 = updateRangeCore tracked e o2 := by
  unfold updateRangeCore
  rw [mapTrackedStart_wsOnly e tracked.start hws o1 o2,
      mapTrackedEnd_wsOnly e tracked.stop hws o1 o2]

/-- Claim C7: with the affix option enabled, a pure insertion exactly at the
tracked start or tracked end whose replacement text contains no whitespace
is absorbed — the corresponding boundary lands on the far side of the
inserted text, expanding the range — while an all-whitespace insertion
behaves exactly as with the option disabled, so it never expands the
range. -/
theorem updateRange_affix_absorption (tracked : Range) (e : Edit)
    (hzero : e.range.stop = e.range.start)
    (hne : tracked.start.isBefore tracked.stop) :
    (e.range.start = tracked.start → containsNoWhitespace e.text = true →
      updateRange tracked e ⟨true⟩ =
        some ⟨e.range.start, postEditTranslation e tracked.stop⟩) ∧
    (e.range.start = tracked.stop → containsNoWhitespace e.text = true →
      updateRange tracked e ⟨true⟩ = some ⟨tracked.start, mappedEditEnd e⟩) ∧
    (containsOnlyWhitespace e.text = true →
      updateRange tracked e ⟨true⟩ = updateRange tracked e ⟨false⟩) := by
  refine ⟨?_, ?_, ?_⟩
  · intro hat hnws
    have hneg1 : ¬ ((e.range.start.isBefore tracked.start ∧
        tracked.stop.isBefore e.range.stop) ∨
        (tracked.start.isEqual e.range.start ∧ tracked.stop.isEqual e.range.stop)) := by
      rintro (⟨hc, -⟩ | ⟨-, hc2⟩)
      · rw [hat] at hc
        exact Position.isBefore_irrefl _ hc
      · unfold Position.isEqual at hc2
        have h6 : tracked.stop = tracked.start := hc2.trans (hzero.trans hat)
        rw [h6] at hne
        exact Position.isBefore_irrefl _ hne
    have hneg2 : ¬ (tracked.start.isAfterOrEqual e.range.start ∧
        tracked.start.isBefore e.range.stop ∧
        tracked.stop.isAfterOrEqual e.range.stop) := by
      rintro ⟨-, hc, -⟩
      rw [hzero, hat] at hc
      exact Position.isBefore_irrefl _ hc
    have hneg3 : ¬ (e.range.start.isBefore tracked.stop ∧
        e.range.stop.isAfterOrEqual tracked.stop ∧
        e.range.start.isAfterOrEqual tracked.start) := by
      rintro ⟨-, hc, -⟩
      apply hc
      rw [hzero, hat]
      exact hne
    have hstart : mapTrackedStart e ⟨true⟩ tracked.start = e.range.start := by
      by_cases hOW : containsOnlyWhitespace e.text = true
      · have hempty : e.text = "" := text_empty_of_ws_and_noWs hOW hnws
        unfold mapTrackedStart
        rw [if_neg (fun hc => by
              have h7 := hc.2.2
              rw [hOW] at h7
              exact absurd h7 (by decide)),
            if_pos ⟨hzero.symm, hat.symm⟩, ← (hzero.trans hat),
            postEditTranslation_at_stop, mappedEditEnd_empty e hempty]
      · have hOW' : containsOnlyWhitespace e.text = false := by
          cases h : containsOnlyWhitespace e.text with
          | false => rfl
          | true => exact absurd h hOW
        unfold mapTrackedStart
        rw [if_pos ⟨rfl,
          show e.range.stop.isEqual tracked.start from hzero.trans hat, hOW'⟩]
    have hend : mapTrackedEnd e ⟨true⟩ tracked.stop =
        postEditTranslation e tracked.stop := by
      unfold mapTrackedEnd mapPastEdit
      have ha : ¬ ((⟨true⟩ : UpdateRangeOptions).supportRangeAffix = true ∧
          e.range.start.isEqual tracked.stop ∧
          containsOnlyWhitespace e.text = false) := by
        rintro ⟨-, hc, -⟩
        unfold Position.isEqual at hc
        rw [hat] at hc
        rw [hc] at hne
        exact Position.isBefore_irrefl _ hne
      have hb1 : ¬ tracked.stop.isBefore e.range.start := by
        rintro hc
        rw [hat] at hc
        exact Position.isBefore_asymm hne hc
      have hb2 : ¬ (e.range.start.isEqual e.range.stop ∧
          tracked.stop.isEqual e.range.start) := by
        rintro ⟨-, hc⟩
        unfold Position.isEqual at hc
        rw [hc, hat] at hne
        exact Position.isBefore_irrefl _ hne
      have hb3 : tracked.stop.isAfterOrEqual e.range.stop := by
        rintro hc
        rw [hzero, hat] at hc
        exact Position.isBefore_asymm hne hc
      rw [if_neg ha, if_neg hb1, if_neg hb2, if_pos hb3]
    unfold updateRange updateRangeCore
    rw [if_neg hneg1, if_neg hneg2, if_neg hneg3, hstart, hend]
  · intro hat2 hnws
    have hneg1 : ¬ ((e.range.start.isBefore tracked.start ∧
        tracked.stop.isBefore e.range.stop) ∨
        (tracked.start.isEqual e.range.start ∧ tracked.stop.isEqual e.range.stop)) := by
      rintro (⟨hc, -⟩ | ⟨hc1, -⟩)
      · rw [hat2] at hc
        exact Position.isBefore_asymm hne hc
      · unfold Position.isEqual at hc1
        rw [hc1, hat2] at hne
        exact Position.isBefore_irrefl _ hne
    have hneg2 : ¬ (tracked.start.isAfterOrEqual e.range.start ∧
        tracked.start.isBefore e.range.stop ∧
        tracked.stop.isAfterOrEqual e.range.stop) := by
      rintro ⟨hc, -, -⟩
      apply hc
      rw [hat2]
      exact hne
    have hneg3 : ¬ (e.range.start.isBefore tracked.stop ∧
        e.range.stop.isAfterOrEqual tracked.stop ∧
        e.range.start.isAfterOrEqual tracked.start) := by
      rintro ⟨hc, -, -⟩
      rw [hat2] at hc
      exact Position.isBefore_irrefl _ hc
    have hstart : mapTrackedStart e ⟨true⟩ tracked.start = tracked.start := by
      unfold mapTrackedStart mapPastEdit
      have ha : ¬ ((⟨true⟩ : UpdateRangeOptions).supportRangeAffix = true ∧
          e.range.stop.isEqual tracked.start ∧
          containsOnlyWhitespace e.text = false) := by
        rintro ⟨-, hc, -⟩
        unfold Position.isEqual at hc
        have h6 : tracked.start = tracked.stop := hc.symm.trans (hzero.trans hat2)
        rw [h6] at hne
        exact Position.isBefore_irrefl _ hne
      have hzs : ¬ (e.range.start.isEqual e.range.stop ∧
          tracked.start.isEqual e.range.start) := by
        rintro ⟨-, hc⟩
        unfold Position.isEqual at hc
        rw [hc, hat2] at hne
        exact Position.isBefore_irrefl _ hne
      have hb : tracked.start.isBefore e.range.start := by
        rw [hat2]
        exact hne
      rw [if_neg ha, if_neg hzs, if_pos hb]
    have hend : mapTrackedEnd e ⟨true⟩ tracked.stop = mappedEditEnd e := by
      by_cases hOW : containsOnlyWhitespace e.text = true
      · have hempty : e.text = "" := text_empty_of_ws_and_noWs hOW hnws
        unfold mapTrackedEnd mapPastEdit
        have ha : ¬ ((⟨true⟩ : UpdateRangeOptions).supportRangeAffix = true ∧
            e.range.start.isEqual tracked.stop ∧
            containsOnlyWhitespace e.text = false) := by
          rintro ⟨-, -, hc⟩
          rw [hOW] at hc
          exact absurd hc (by decide)
        have hb1 : ¬ tracked.stop.isBefore e.range.start := by
          rintro hc
          rw [hat2] at hc
          exact Position.isBefore_irrefl _ hc
        have hb2 : e.range.start.isEqual e.range.stop ∧
            tracked.stop.isEqual e.range.start := ⟨hzero.symm, hat2.symm⟩
        rw [if_neg ha, if_neg hb1, if_pos hb2, mappedEditEnd_empty e hempty, hat2]
      · have hOW' : containsOnlyWhitespace e.text = false := by
          cases h : containsOnlyWhitespace e.text with
          | false => rfl
          | true => exact absurd h hOW
        unfold mapTrackedEnd
        rw [if_pos ⟨rfl,
          show e.range.start.isEqual tracked.stop from hat2, hOW'⟩]
    unfold updateRange updateRangeCore
    rw [if_neg hneg1, if_neg hneg2, if_neg hneg3, hstart, hend]
  · intro hws
    unfold updateRange
    rw [updateRangeCore_wsOnly tracked e hws ⟨true⟩ ⟨false⟩]

/-- Witness for C7: a one-character insertion at the tracked start with the
affix option enabled is absorbed. -/
theorem updateRange_affix_absorption_witness :
    updateRange ⟨⟨0, 0⟩, ⟨0, 4⟩⟩ ⟨⟨⟨0, 0⟩, ⟨0, 0⟩⟩, "h"⟩ ⟨true⟩ =
      some ⟨⟨0, 0⟩, postEditTranslation ⟨⟨⟨0, 0⟩, ⟨0, 0⟩⟩, "h"⟩ ⟨0, 4⟩⟩ :=
  (updateRange_affix_absorption ⟨⟨0, 0⟩, ⟨0, 4⟩⟩ ⟨⟨⟨0, 0⟩, ⟨0, 0⟩⟩, "h"⟩
    (by decide) (by decide)).1 rfl (by decide)

/-- Claim C8: for every edit, the fixed-extent updater returns a range whose
(line delta, last-line character) extent equals the original tracked
extent, and whose start is the rule-4 translation of the anchor — it is
either unchanged or, only when the edit ends at or before the anchor,
translated through the edit delta. -/
theorem updateFixedRange_fixed_extent (tracked : Range) (e : Edit)
    (hval : tracked.stop.isAfterOrEqual tracked.start) :
    updateFixedRange tracked e = some (updateFixedRangeCore tracked e) ∧
    rangeExtent (updateFixedRangeCore tracked e) = rangeExtent tracked ∧
    (updateFixedRangeCore tracked e).start = mapPastEdit e tracked.start ∧
    ((updateFixedRangeCore tracked e).start = tracked.start ∨
      (tracked.start.isAfterOrEqual e.range.stop ∧
        (updateFixedRangeCore tracked e).start = postEditTranslation e tracked.start)) := by
  have hval' := hval
  unfold Position.isAfterOrEqual Position.isBefore at hval'
  have hstart : (updateFixedRangeCore tracked e).start = mapPastEdit e tracked.start := by
    unfold updateFixedRangeCore
    by_cases hl : tracked.stop.line = tracked.start.line
    · rw [if_pos hl]
    · rw [if_neg hl]
  refine ⟨rfl, ?_, hstart, ?_⟩
  · unfold updateFixedRangeCore Position.translate rangeExtent
    by_cases hl : tracked.stop.line = tracked.start.line
    · rw [if_pos hl, if_pos rfl]
      dsimp only
      rw [Prod.mk.injEq]
      constructor
      · omega
      · rw [if_pos rfl, if_pos hl]
        omega
    · rw [if_neg hl]
      have hd : ((tracked.stop.line : Int) - (tracked.start.line : Int)) ≠ 0 := by
        omega
      rw [if_neg hd]
      dsimp only
      rw [Prod.mk.injEq]
      constructor
      · omega
      · have hne2 : ((mapPastEdit e tracked.start).line +
            ((tracked.stop.line : Int) - (tracked.start.line : Int))).toNat ≠
            (mapPastEdit e tracked.start).line := by
          omega
        rw [if_neg hne2, if_neg hl]
  · rw [hstart]
    unfold mapPastEdit
    by_cases h1 : tracked.start.isBefore e.range.start
    · rw [if_pos h1]
      exact Or.inl rfl
    · rw [if_neg h1]
      by_cases h2 : e.range.start.isEqual e.range.stop ∧
          tracked.start.isEqual e.range.start
      · rw [if_pos h2]
        exact Or.inl rfl
      · rw [if_neg h2]
        by_cases h3 : tracked.start.isAfterOrEqual e.range.stop
        · rw [if_pos h3]
          exact Or.inr ⟨h3, rfl⟩
        · rw [if_neg h3]
          exact Or.inl rfl

/-- Witness for C8 at a concrete interior insertion into a fixed range. -/
theorem updateFixedRange_fixed_extent_witness :
    updateFixedRange ⟨⟨0, 0⟩, ⟨0, 10⟩⟩ ⟨⟨⟨0, 6⟩, ⟨0, 6⟩⟩, "w"⟩ =
      some (updateFixedRangeCore ⟨⟨0, 0⟩, ⟨0, 10⟩⟩ ⟨⟨⟨0, 6⟩, ⟨0, 6⟩⟩, "w"⟩) ∧
    rangeExtent (updateFixedRangeCore ⟨⟨0, 0⟩, ⟨0, 10⟩⟩ ⟨⟨⟨0, 6⟩, ⟨0, 6⟩⟩, "w"⟩) =
      rangeExtent ⟨⟨0, 0⟩, ⟨0, 10⟩⟩ :=
  ⟨(updateFixedRange_fixed_extent ⟨⟨0, 0⟩, ⟨0, 10⟩⟩ ⟨⟨⟨0, 6⟩, ⟨0, 6⟩⟩, "w"⟩
      (by decide)).1,
   (updateFixedRange_fixed_extent ⟨⟨0, 0⟩, ⟨0, 10⟩⟩ ⟨⟨⟨0, 6⟩, ⟨0, 6⟩⟩, "w"⟩
      (by decide)).2.1⟩

theorem insertEditDesc_perm (e : Edit) (l : List Edit) :
    (insertEditDesc e l).Perm (e :: l) := by
  induction l with
  | nil => exact List.Perm.refl _
  | cons x xs ih =>
    unfold insertEditDesc
    by_cases hx : x.range.start.isBefore e.range.start
    · rw [if_pos hx]
    · rw [if_neg hx]
      exact (List.Perm.cons x ih).trans (List.Perm.swap e x xs)

theorem sortChangesDesc_perm (l : List Edit) : (sortChangesDesc l).Perm l := by
  induction l with
  | nil => exact List.Perm.refl _
  | cons e xs ih =>
    exact (insertEditDesc_perm e (sortChangesDesc xs)).trans (List.Perm.cons e ih)

theorem mem_insertEditDesc {y e : Edit} {l : List Edit} :
    y ∈ insertEditDesc e l ↔ y = e ∨ y ∈ l := by
  rw [(insertEditDesc_perm e l).mem_iff]
  exact List.mem_cons

theorem insertEditDesc_sorted {e : Edit} {l : List Edit}
    (h : l.Pairwise (fun a b => a.range.start.isAfterOrEqual b.range.start)) :
    (insertEditDesc e l).Pairwise
      (fun a b => a.range.start.isAfterOrEqual b.range.start) := by
  induction l with
  | nil =>
    unfold insertEditDesc
    exact List.Pairwise.cons (fun a ha => absurd ha (List.not_mem_nil a))
      List.Pairwise.nil
  | cons x xs ih =>
    rw [List.pairwise_cons] at h
    obtain ⟨hx_all, hxs⟩ := h
    unfold insertEditDesc
    by_cases hx : x.range.start.isBefore e.range.start
    · rw [if_pos hx]
      refine List.Pairwise.cons ?_ (List.Pairwise.cons hx_all hxs)
      intro y hy
      rw [List.mem_cons] at hy
      rcases hy with rfl | hy
      · exact Position.isBefore_asymm hx
      · have h8 := hx_all y hy
        unfold Position.isAfterOrEqual Position.isBefore at *
        omega
    · rw [if_neg hx]
      refine List.Pairwise.cons ?_ (ih hxs)
      intro y hy
      rw [mem_insertEditDesc] at hy
      rcases hy with rfl | hy
      · exact hx
      · exact hx_all y hy

theorem sortChangesDesc_sorted (l : List Edit) :
    (sortChangesDesc l).Pairwise
      (fun a b => a.range.start.isAfterOrEqual b.range.start) := by
  induction l with
  | nil => exact List.Pairwise.nil
  | cons e xs ih => exact insertEditDesc_sorted ih

theorem editSep_symm : Symmetric editSep := by
  rintro a b (h | h)
  · exact Or.inr h
  · exact Or.inl h

theorem editSep_ne_start {a b : Edit} (h : editSep a b) :
    a.range.start ≠ b.range.start := by
  rcases h with ⟨-, h⟩ | ⟨-, h⟩
  · intro hc
    rw [hc] at h
    exact Position.isBefore_irrefl _ h
  · intro hc
    rw [hc] at h
    exact Position.isBefore_irrefl _ h

theorem pairwise_gt_of_sorted_ne {l : List Edit}
    (hsort : l.Pairwise (fun a b => a.range.start.isAfterOrEqual b.range.start))
    (hne : l.Pairwise (fun a b => a.range.start ≠ b.range.start)) :
    l.Pairwise editGt := by
  refine List.Pairwise.imp ?_ (hsort.and hne)
  intro a b h
  obtain ⟨h1, h2⟩ := h
  unfold editGt
  have h3 : ¬ (a.range.start.line = b.range.start.line ∧
      a.range.start.character = b.range.start.character) := by
    rintro ⟨x, y⟩
    exact h2 (position_eq_of_coords x y)
  unfold Position.isAfterOrEqual Position.isBefore at *
  omega

theorem sorted_desc_eq {l1 l2 : List Edit} (hperm : l1.Perm l2)
    (h1 : l1.Pairwise editGt) (h2 : l2.Pairwise editGt) : l1 = l2 :=
  List.eq_of_perm_of_sorted hperm h1 h2

/-- Claim C9: over a batch of mutually separated (non-overlapping,
distinct-start) edits given in original coordinates, the multi-edit
composer is order independent — every permutation of the batch yields the
same result — and that result equals folding the single-edit updater over
the batch sorted by span start descending (bottom of the document
first). -/
theorem updateRangeMultipleChanges_order_independent (tracked : Range)
    (l l2 : List Edit) (hsep : l.Pairwise editSep) (hperm : l.Perm l2) :
    updateRangeMultipleChanges tracked l2 = updateRangeMultipleChanges tracked l ∧
    (∀ ldesc : List Edit, l.Perm ldesc → ldesc.Pairwise editGt →
      updateRangeMultipleChanges tracked l =
        some (ldesc.foldl (fun r e => updateRangeCore r e ⟨false⟩) tracked)) := by
  have hnel : l.Pairwise (fun a b => a.range.start ≠ b.range.start) :=
    List.Pairwise.imp (fun h => editSep_ne_start h) hsep
  have hgt : ∀ m : List Edit, l.Perm m → (sortChangesDesc m).Pairwise editGt := by
    intro m hm
    have hpm : (sortChangesDesc m).Perm l := (sortChangesDesc_perm m).trans hm.symm
    have hnem : (sortChangesDesc m).Pairwise
        (fun a b => a.range.start ≠ b.range.start) :=
      (List.Perm.pairwise_iff (fun h hc => h hc.symm) hpm).mpr hnel
    exact pairwise_gt_of_sorted_ne (sortChangesDesc_sorted m) hnem
  have hkey : ∀ m : List Edit, l.Perm m → sortChangesDesc m = sortChangesDesc l := by
    intro m hm
    exact sorted_desc_eq
      ((sortChangesDesc_perm m).trans (hm.symm.trans (sortChangesDesc_perm l).symm))
      (hgt m hm) (hgt l (List.Perm.refl l))
  constructor
  · unfold updateRangeMultipleChanges
    rw [hkey l2 hperm]
  · intro ldesc hld hsortd
    have heq : ldesc = sortChangesDesc l := by
      refine (sorted_desc_eq ?_ (hgt l (List.Perm.refl l)) hsortd).symm
      exact (sortChangesDesc_perm l).trans hld
    unfold updateRangeMultipleChanges
    rw [heq, foldl_bind_some]

/-- Witness for C9: swapping the two edits of the repository's multi-change
scenario does not change the composed result. -/
theorem updateRangeMultipleChanges_order_independent_witness :
    updateRangeMultipleChanges ⟨⟨2, 7⟩, ⟨17, 13⟩⟩
        [⟨⟨⟨2, 2⟩, ⟨2, 3⟩⟩, "hi"⟩, ⟨⟨⟨16, 5⟩, ⟨17, 3⟩⟩, ""⟩] =
      updateRangeMultipleChanges ⟨⟨2, 7⟩, ⟨17, 13⟩⟩
        [⟨⟨⟨16, 5⟩, ⟨17, 3⟩⟩, ""⟩, ⟨⟨⟨2, 2⟩, ⟨2, 3⟩⟩, "hi"⟩] :=
  (updateRangeMultipleChanges_order_independent ⟨⟨2, 7⟩, ⟨17, 13⟩⟩
    [⟨⟨⟨16, 5⟩, ⟨17, 3⟩⟩, ""⟩, ⟨⟨⟨2, 2⟩, ⟨2, 3⟩⟩, "hi"⟩]
    [⟨⟨⟨2, 2⟩, ⟨2, 3⟩⟩, "hi"⟩, ⟨⟨⟨16, 5⟩, ⟨17, 3⟩⟩, ""⟩]
    (by decide) (List.Perm.swap _ _ _)).1
